import Mathlib

/-!
Verification of the voicevox_engine prosody data model and kana codec.

Shallow embedding notes:
* Python `float` fields (`vowel_length`, `pitch`, ...) are modelled as `ℚ`:
  no claim performs floating-point arithmetic on them; the codec and the
  engine stages only store exact constants (0) or pass them through.
* Python `Optional[T]` is `Option T`, `str` is `String`, `int` is `Int`,
  `List` is `List`, a raised exception is the `Except`/`Option` error channel.
* The characters `'` (accent mark), `{` and `}` (format braces) are written
  via `Char.ofNat` so that source strings stay plain.
-/

/-- Accent-mark character `'` (U+0027), written by code point. -/
def accentSymbol : Char := Char.ofNat 39

/-- Opening format brace character. -/
def lbraceChar : Char := Char.ofNat 123

/-- Closing format brace character. -/
def rbraceChar : Char := Char.ofNat 125

/-- One-character string holding the accent mark. -/
def accentStr : String := String.mk [accentSymbol]

/-- Mora (voicevox_engine/model.py `Mora`): one phonetic beat.  Fields in
Python declaration order: text, consonant, consonant_length, vowel,
vowel_length, pitch.  The pydantic model has no custom validators. -/
structure Mora where
  text : String
  consonant : Option String
  consonant_length : Option ℚ
  vowel : String
  vowel_length : ℚ
  pitch : ℚ
deriving DecidableEq, Repr

/-- AccentPhrase (voicevox_engine/model.py `AccentPhrase`).  The pydantic
model has no custom validators; `is_interrogative` defaults to false. -/
structure AccentPhrase where
  moras : List Mora
  accent : Int
  pause_mora : Option Mora
  is_interrogative : Bool
deriving DecidableEq, Repr

/-- AudioQuery (voicevox_engine/model.py `AudioQuery`). -/
structure AudioQuery where
  accent_phrases : List AccentPhrase
  speedScale : ℚ
  pitchScale : ℚ
  intonationScale : ℚ
  volumeScale : ℚ
  prePhonemeLength : ℚ
  postPhonemeLength : ℚ
  outputSamplingRate : Int
  outputStereo : Bool
  kana : Option String
deriving DecidableEq, Repr

/-- Pydantic construction of a `Mora` (model.py lines 12-22): with well-typed
arguments and no custom validators, pydantic type validation always succeeds
and stores the fields unchanged.  The `Except` channel mirrors pydantic
ValidationError, which this model never raises for well-typed input. -/
def Mora.validate (text : String) (consonant : Option String)
    (consonant_length : Option ℚ) (vowel : String) (vowel_length : ℚ)
    (pitch : ℚ) : Except String Mora :=
  .ok ⟨text, consonant, consonant_length, vowel, vowel_length, pitch⟩

/-- Pydantic construction of an `AccentPhrase` (model.py lines 32-40): no
custom validators exist, so type validation alone is performed and any
well-typed field combination is accepted. -/
def AccentPhrase.validate (moras : List Mora) (accent : Int)
    (pause_mora : Option Mora) (is_interrogative : Bool) :
    Except String AccentPhrase :=
  .ok ⟨moras, accent, pause_mora, is_interrogative⟩

/-- ParseKanaErrorCode (model.py lines 74-81): Python `Enum` with seven
members, each valued by a message format template. -/
inductive ParseKanaErrorCode where
  | UNKNOWN_TEXT
  | ACCENT_TOP
  | ACCENT_TWICE
  | ACCENT_NOTFOUND
  | EMPTY_PHRASE
  | INTERROGATION_MARK_NOT_AT_END
  | INFINITE_LOOP
deriving DecidableEq, Repr

/-- Template string of each enum member (the Python `Enum` value), with the
format braces written via `Char.ofNat` around the placeholder names. -/
def ParseKanaErrorCode.value (c : ParseKanaErrorCode) : String :=
  match c with
  | .UNKNOWN_TEXT =>
      "判別できない読み仮名があります: " ++ String.mk [lbraceChar] ++ "text" ++ String.mk [rbraceChar]
  | .ACCENT_TOP =>
      "句頭にアクセントは置けません: " ++ String.mk [lbraceChar] ++ "text" ++ String.mk [rbraceChar]
  | .ACCENT_TWICE =>
      "1つのアクセント句に二つ以上のアクセントは置けません: " ++ String.mk [lbraceChar] ++ "text" ++ String.mk [rbraceChar]
  | .ACCENT_NOTFOUND =>
      "アクセントを指定していないアクセント句があります: " ++ String.mk [lbraceChar] ++ "text" ++ String.mk [rbraceChar]
  | .EMPTY_PHRASE =>
      String.mk [lbraceChar] ++ "position" ++ String.mk [rbraceChar] ++ "番目のアクセント句が空白です"
  | .INTERROGATION_MARK_NOT_AT_END =>
      "アクセント句末以外に「？」は置けません: " ++ String.mk [lbraceChar] ++ "text" ++ String.mk [rbraceChar]
  | .INFINITE_LOOP =>
      "処理時に無限ループになってしまいました...バグ報告をお願いします。"

/-- Python `Enum` member name (`errcode.name`). -/
def ParseKanaErrorCode.pyName (c : ParseKanaErrorCode) : String :=
  match c with
  | .UNKNOWN_TEXT => "UNKNOWN_TEXT"
  | .ACCENT_TOP => "ACCENT_TOP"
  | .ACCENT_TWICE => "ACCENT_TWICE"
  | .ACCENT_NOTFOUND => "ACCENT_NOTFOUND"
  | .EMPTY_PHRASE => "EMPTY_PHRASE"
  | .INTERROGATION_MARK_NOT_AT_END => "INTERROGATION_MARK_NOT_AT_END"
  | .INFINITE_LOOP => "INFINITE_LOOP"

/-- List of all members, in Python declaration order (`list(ParseKanaErrorCode)`). -/
def parseKanaErrorCodes : List ParseKanaErrorCode :=
  [.UNKNOWN_TEXT, .ACCENT_TOP, .ACCENT_TWICE, .ACCENT_NOTFOUND,
   .EMPTY_PHRASE, .INTERROGATION_MARK_NOT_AT_END, .INFINITE_LOOP]

/-- Scanner collecting the placeholder names of a format template.  The
`Option` state is `none` outside braces and `some acc` while reading a
placeholder name. -/
def placeholderScan : List Char → Option (List Char) → List String
  | [], _ => []
  | c :: rest, none =>
      if c = lbraceChar then placeholderScan rest (some [])
      else placeholderScan rest none
  | c :: rest, some nm =>
      if c = rbraceChar then String.mk nm :: placeholderScan rest none
      else placeholderScan rest (some (nm ++ [c]))

/-- Placeholder names appearing in the template of an error code. -/
def ParseKanaErrorCode.placeholders (c : ParseKanaErrorCode) : List String :=
  placeholderScan c.value.data none

/-- Restricted model of Python `str.format(**kwargs)`: literal characters are
copied, `\x7bname\x7d` is replaced by the keyword value, a missing keyword or a
stray closing brace is `none` (Python raises KeyError / ValueError).  The
Bool/accumulator pair is `false` outside braces, `true` with the name read so
far inside braces. -/
def pyFormatScan : List Char → Bool → List Char → List (String × String) →
    Option (List Char)
  | [], false, _, _ => some []
  | [], true, _, _ => none
  | c :: rest, false, _, kw =>
      if c = lbraceChar then pyFormatScan rest true [] kw
      else if c = rbraceChar then none
      else (pyFormatScan rest false [] kw).map (c :: ·)
  | c :: rest, true, nm, kw =>
      if c = rbraceChar then
        match kw.lookup (String.mk nm) with
        | some v => (pyFormatScan rest false [] kw).map (v.data ++ ·)
        | none => none
      else pyFormatScan rest true (nm ++ [c]) kw

/-- Python `template.format(**kwargs)` on a template string. -/
def pyFormat (template : String) (kwargs : List (String × String)) :
    Option String :=
  (pyFormatScan template.data false [] kwargs).map String.mk

/-- ParseKanaError (model.py lines 84-90): exception storing the error code,
the code name, the keyword payload, and the formatted message. -/
structure PyParseKanaError where
  errcode : ParseKanaErrorCode
  errname : String
  kwargs : List (String × String)
  text : String
deriving DecidableEq, Repr

/-- Constructor `ParseKanaError.__init__`: stores `errcode`, `errname =
errcode.name`, `kwargs`, and `text = errcode.value.format(**kwargs)`.  The
`Option` result is `none` exactly when `str.format` raises. -/
def mkParseKanaError (errcode : ParseKanaErrorCode)
    (kwargs : List (String × String)) : Option PyParseKanaError :=
  (pyFormat errcode.value kwargs).map fun t =>
    ⟨errcode, errcode.pyName, kwargs, t⟩

/-- ParseKanaBadRequest (model.py lines 93-108): response body fields. -/
structure ParseKanaBadRequest where
  text : String
  error_name : String
  error_args : List (String × String)
deriving DecidableEq, Repr

/-- Constructor `ParseKanaBadRequest.__init__(err)`: copies the message text,
the error name and the error arguments out of the exception. -/
def mkParseKanaBadRequest (err : PyParseKanaError) : ParseKanaBadRequest :=
  ⟨err.text, err.errname, err.kwargs⟩

/-- HTTPException as raised by run.py handlers: a status code and, for the
`/accent_phrases` handler, a `ParseKanaBadRequest` detail body. -/
structure HTTPExceptionModel where
  status_code : Nat
  detail : ParseKanaBadRequest
deriving DecidableEq, Repr

/-- Handler of `POST /accent_phrases` (run.py lines 149-179).  The collaborator
functions are parameters: `pk` is `parse_kana` from the kana codec, `rep` is
`engine.replace_mora_data`, `cap` is `engine.create_accent_phrases`.  With
`is_kana` true the text is parsed; a `ParseKanaError` becomes an HTTP 400
whose detail is `ParseKanaBadRequest(err)`, otherwise the parsed phrases are
passed through `replace_mora_data`.  With `is_kana` false the engine path is
used. -/
def accentPhrasesHandler
    (pk : String → Except PyParseKanaError (List AccentPhrase))
    (rep : List AccentPhrase → Int → List AccentPhrase)
    (cap : String → Int → List AccentPhrase)
    (text : String) (speaker : Int) (is_kana : Bool) :
    Except HTTPExceptionModel (List AccentPhrase) :=
  if is_kana then
    match pk text with
    | .error err => .error ⟨400, mkParseKanaBadRequest err⟩
    | .ok aps => .ok (rep aps speaker)
  else
    .ok (cap text speaker)

/-- replace_phoneme_length (synthesis_engine_espnet.py lines 191-208): the
ESPnet engine cannot set phoneme lengths, so the input is returned as is. -/
def SynthesisEngineESPNet.replace_phoneme_length
    (accent_phrases : List AccentPhrase) (speaker_id : Int) :
    List AccentPhrase :=
  accent_phrases

/-- replace_mora_pitch (synthesis_engine_espnet.py lines 210-227): the ESPnet
engine cannot set pitch, so the input is returned as is. -/
def SynthesisEngineESPNet.replace_mora_pitch
    (accent_phrases : List AccentPhrase) (speaker_id : Int) :
    List AccentPhrase :=
  accent_phrases

/-- Value tree determining a Python hash: the `__hash__` implementations in
model.py hash `tuple(sorted(items))` where `items` lists the `__dict__`
entries (lists converted to tuples).  CPython hashing of such a tree is a
pure function of this structure, so two objects with equal trees hash
equally; the tree is what the embedding records. -/
inductive PyHashable where
  | pstr : String → PyHashable
  | pnone : PyHashable
  | pint : Int → PyHashable
  | prat : ℚ → PyHashable
  | pbool : Bool → PyHashable
  | ptuple : List PyHashable → PyHashable

/-- Lexicographic comparison of character lists (Python string `<=`). -/
def strLeB : List Char → List Char → Bool
  | [], _ => true
  | _ :: _, [] => false
  | a :: as, b :: bs => if a = b then strLeB as bs else decide (a < b)

/-- Insertion of one keyed item into a key-sorted item list. -/
def insertItem (x : String × PyHashable) :
    List (String × PyHashable) → List (String × PyHashable)
  | [] => [x]
  | y :: ys => if strLeB x.1.data y.1.data then x :: y :: ys
               else y :: insertItem x ys

/-- Python `sorted` over the item list.  The dictionary keys are pairwise
distinct field names, so Python tuple comparison never reaches the second
component and a key-only sort is exact. -/
def pySortItems : List (String × PyHashable) → List (String × PyHashable)
  | [] => []
  | x :: xs => insertItem x (pySortItems xs)

/-- Hash value of an optional string field (`None` or the string). -/
def pyOfOptStr : Option String → PyHashable
  | none => .pnone
  | some s => .pstr s

/-- Hash value of an optional float field (`None` or the number). -/
def pyOfOptRat : Option ℚ → PyHashable
  | none => .pnone
  | some q => .prat q

/-- Sorted item list hashed by `Mora.__hash__` (model.py lines 24-29): the
`__dict__` items in field order, no field being a list, sorted. -/
def Mora.hashItems (m : Mora) : List (String × PyHashable) :=
  pySortItems
    [("text", .pstr m.text),
     ("consonant", pyOfOptStr m.consonant),
     ("consonant_length", pyOfOptRat m.consonant_length),
     ("vowel", .pstr m.vowel),
     ("vowel_length", .prat m.vowel_length),
     ("pitch", .prat m.pitch)]

/-- Hash-determining tree of a `Mora` object appearing inside another hashed
tuple: CPython hashes the element through `Mora.__hash__`, which hashes the
tuple of (key, value) pairs recorded here. -/
def Mora.hashObj (m : Mora) : PyHashable :=
  .ptuple ((Mora.hashItems m).map fun kv => .ptuple [.pstr kv.1, kv.2])

/-- Hash value of the optional `pause_mora` field. -/
def pyOfOptMora : Option Mora → PyHashable
  | none => .pnone
  | some m => Mora.hashObj m

/-- Sorted item list hashed by `AccentPhrase.__hash__` (model.py lines 42-47):
the `moras` list value is converted to a tuple of its `Mora` elements. -/
def AccentPhrase.hashItems (ap : AccentPhrase) : List (String × PyHashable) :=
  pySortItems
    [("moras", .ptuple (ap.moras.map Mora.hashObj)),
     ("accent", .pint ap.accent),
     ("pause_mora", pyOfOptMora ap.pause_mora),
     ("is_interrogative", .pbool ap.is_interrogative)]

/-- query2tokens (synthesis_engine_espnet.py lines 19-71): turns an AudioQuery
into the flat token list fed to the ESPnet model, per g2p type.  The nested
Python append loops are rendered as `flatMap` over the enumerated lists; the
unknown-type `RuntimeError` is the `Except` error channel. -/
def query2tokens (query : AudioQuery) (g2p_type : String) :
    Except String (List String) :=
  if g2p_type = "pyopenjtalk_accent_with_pause" ∨ g2p_type = "pyopenjtalk_g2p_accent" then
    .ok (query.accent_phrases.flatMap fun accent_phrase =>
      (accent_phrase.moras.enum.flatMap fun im =>
        (match im.2.consonant with
         | some c => [c, toString accent_phrase.accent,
                      toString ((im.1 : Int) + 1 - accent_phrase.accent)]
         | none => [])
        ++ [im.2.vowel, toString accent_phrase.accent,
            toString ((im.1 : Int) + 1 - accent_phrase.accent)])
      ++ (match accent_phrase.pause_mora with
          | some pm =>
            if g2p_type = "pyopenjtalk_accent_with_pause" then [pm.vowel] else []
          | none => []))
  else if g2p_type = "pyopenjtalk_prosody" then
    .ok (query.accent_phrases.enum.flatMap fun iap =>
      (iap.2.moras.enum.flatMap fun jm =>
        (match jm.2.consonant with
         | some c => [c.toLower]
         | none => [])
        ++ [if jm.2.vowel = "N" then jm.2.vowel else jm.2.vowel.toLower]
        ++ (if iap.2.accent = (jm.1 : Int) + 1 ∨ jm.1 = 0 then
              [if iap.2.accent = (jm.1 : Int) + 1 ∧ jm.1 = 0 then "]"
               else if jm.1 = 0 then "[" else "]"]
            else []))
      ++ [if query.accent_phrases.length > iap.1 + 1 then
            (if iap.2.pause_mora.isSome then "_" else "#")
          else
            (if iap.2.is_interrogative then "?" else "$")])
  else
    .error ("不明なG2Pの種類です。: " ++ g2p_type)

/-- Tokens contributed by the moras of one accent phrase in the
`pyopenjtalk_prosody` branch of `query2tokens` (phoneme tokens plus the
`\x5b`/`\x5d` accent-transition marks). -/
def prosodyMoraTokens (ap : AccentPhrase) : List String :=
  ap.moras.enum.flatMap fun jm =>
    (match jm.2.consonant with
     | some c => [c.toLower]
     | none => [])
    ++ [if jm.2.vowel = "N" then jm.2.vowel else jm.2.vowel.toLower]
    ++ (if ap.accent = (jm.1 : Int) + 1 ∨ jm.1 = 0 then
          [if ap.accent = (jm.1 : Int) + 1 ∧ jm.1 = 0 then "]"
           else if jm.1 = 0 then "[" else "]"]
        else [])

/-- Phrase-terminator token of the `pyopenjtalk_prosody` branch: a non-last
phrase ends with an underscore when it carries a pause mora and a hash mark
otherwise; the last phrase ends with a question mark when interrogative and
a dollar sign otherwise. -/
def prosodyTerminator (isLast : Bool) (ap : AccentPhrase) : String :=
  if isLast then (if ap.is_interrogative then "?" else "$")
  else (if ap.pause_mora.isSome then "_" else "#")

/-- C2: `SynthesisEngineESPNet.replace_phoneme_length` and
`SynthesisEngineESPNet.replace_mora_pitch` are identity functions on the
accent-phrase list for every input and speaker: no field is modified and no
phrase is added or removed. -/
theorem espnet_replace_stages_identity
    (accent_phrases : List AccentPhrase) (speaker_id : Int) :
    SynthesisEngineESPNet.replace_phoneme_length accent_phrases speaker_id
        = accent_phrases ∧
    SynthesisEngineESPNet.replace_mora_pitch accent_phrases speaker_id
        = accent_phrases :=
  ⟨rfl, rfl⟩

/-- C3 counterexample: constructing an `AccentPhrase` with an empty mora list
and accent 5 (outside `1..0`) succeeds — pydantic performs no such
validation, so the construction is not rejected. -/
theorem accent_phrase_invalid_construction_accepted :
    AccentPhrase.validate [] 5 none false = .ok ⟨[], 5, none, false⟩ ∧
    (⟨[], 5, none, false⟩ : AccentPhrase).moras.length = 0 ∧
    ¬ (1 ≤ (5 : Int) ∧ (5 : Int) ≤ 0) :=
  ⟨rfl, rfl, by decide⟩

/-- C3 (amended): `AccentPhrase` construction performs no accent or mora-list
validation; every well-typed field combination, including an empty mora list
or an accent outside `1..len(moras)`, is accepted and stored unchanged. -/
theorem accent_phrase_validate_total (moras : List Mora) (accent : Int)
    (pause_mora : Option Mora) (is_interrogative : Bool) :
    AccentPhrase.validate moras accent pause_mora is_interrogative
      = .ok ⟨moras, accent, pause_mora, is_interrogative⟩ :=
  rfl

/-- C4 counterexample: a `Mora` with `consonant` set and `consonant_length`
absent is constructed successfully — the both-present-or-both-absent pairing
is not enforced at construction time. -/
theorem mora_mismatched_consonant_accepted :
    Mora.validate "カ" (some "k") none "a" 0 0
        = .ok ⟨"カ", some "k", none, "a", 0, 0⟩ ∧
    (⟨"カ", some "k", none, "a", 0, 0⟩ : Mora).consonant.isSome = true ∧
    (⟨"カ", some "k", none, "a", 0, 0⟩ : Mora).consonant_length = none :=
  ⟨rfl, rfl, rfl⟩

/-- C4 (amended): `Mora` construction performs only type validation: the
`vowel` field is always present (it is stored unchanged from the required
argument), but the `consonant`/`consonant_length` pairing is not enforced —
every well-typed combination, including exactly one of the two set, is
accepted and stored unchanged. -/
theorem mora_validate_total (text : String) (consonant : Option String)
    (consonant_length : Option ℚ) (vowel : String) (vowel_length : ℚ)
    (pitch : ℚ) :
    Mora.validate text consonant consonant_length vowel vowel_length pitch
        = .ok ⟨text, consonant, consonant_length, vowel, vowel_length, pitch⟩ ∧
    (⟨text, consonant, consonant_length, vowel, vowel_length, pitch⟩ :
        Mora).vowel = vowel :=
  ⟨rfl, rfl⟩

/-- C5: `ParseKanaErrorCode` is a closed enumeration of exactly seven kinds;
the `EMPTY_PHRASE` template carries a `position` placeholder, the
`INFINITE_LOOP` template carries no placeholder, and the five remaining
templates each carry a `text` placeholder for the offending text. -/
theorem parse_kana_error_code_taxonomy :
    parseKanaErrorCodes.length = 7 ∧
    (∀ c : ParseKanaErrorCode, c ∈ parseKanaErrorCodes) ∧
    ParseKanaErrorCode.placeholders .UNKNOWN_TEXT = ["text"] ∧
    ParseKanaErrorCode.placeholders .ACCENT_TOP = ["text"] ∧
    ParseKanaErrorCode.placeholders .ACCENT_TWICE = ["text"] ∧
    ParseKanaErrorCode.placeholders .ACCENT_NOTFOUND = ["text"] ∧
    ParseKanaErrorCode.placeholders .EMPTY_PHRASE = ["position"] ∧
    ParseKanaErrorCode.placeholders .INTERROGATION_MARK_NOT_AT_END = ["text"] ∧
    ParseKanaErrorCode.placeholders .INFINITE_LOOP = [] :=
  ⟨rfl, fun c => by cases c <;> simp [parseKanaErrorCodes],
   rfl, rfl, rfl, rfl, rfl, rfl, rfl⟩

/-- C9: hashing is deterministic over field values — two `Mora` values whose
fields are pairwise equal produce the same hashed item structure, and
likewise two `AccentPhrase` values whose fields (including mora lists) are
pairwise equal; any hash function of that structure therefore returns the
same value. -/
theorem model_hash_deterministic (m₁ m₂ : Mora) (ap₁ ap₂ : AccentPhrase)
    (ht : m₁.text = m₂.text) (hc : m₁.consonant = m₂.consonant)
    (hcl : m₁.consonant_length = m₂.consonant_length)
    (hv : m₁.vowel = m₂.vowel) (hvl : m₁.vowel_length = m₂.vowel_length)
    (hp : m₁.pitch = m₂.pitch)
    (ham : ap₁.moras = ap₂.moras) (haa : ap₁.accent = ap₂.accent)
    (hap : ap₁.pause_mora = ap₂.pause_mora)
    (hai : ap₁.is_interrogative = ap₂.is_interrogative) :
    Mora.hashItems m₁ = Mora.hashItems m₂ ∧
    AccentPhrase.hashItems ap₁ = AccentPhrase.hashItems ap₂ := by
  cases m₁; cases m₂; cases ap₁; cases ap₂
  simp only at ht hc hcl hv hvl hp ham haa hap hai
  subst ht hc hcl hv hvl hp ham haa hap hai
  exact ⟨rfl, rfl⟩

/-- Witness for C9: the determinism theorem applied to concrete equal-field
values. -/
theorem model_hash_deterministic_witness :
    Mora.hashItems ⟨"ア", none, none, "a", 0, 0⟩
        = Mora.hashItems ⟨"ア", none, none, "a", 0, 0⟩ ∧
    AccentPhrase.hashItems ⟨[⟨"ア", none, none, "a", 0, 0⟩], 1, none, false⟩
        = AccentPhrase.hashItems
            ⟨[⟨"ア", none, none, "a", 0, 0⟩], 1, none, false⟩ :=
  model_hash_deterministic _ _ _ _ rfl rfl rfl rfl rfl rfl rfl rfl rfl rfl

/-- Scanning a brace-free literal segment copies it and continues. -/
theorem pyFormatScan_lit (pre rest : List Char) (kw : List (String × String))
    (h : ∀ c ∈ pre, ¬ c = lbraceChar ∧ ¬ c = rbraceChar) :
    pyFormatScan (pre ++ rest) false [] kw
      = (pyFormatScan rest false [] kw).map (pre ++ ·) := by
  induction pre with
  | nil =>
      cases hr : pyFormatScan rest false [] kw <;> simp [hr]
  | cons c cs ih =>
      have hc := h c (by simp)
      simp only [List.cons_append, pyFormatScan, if_neg hc.1, if_neg hc.2,
        List.append_eq]
      rw [ih (fun d hd => h d (by simp [hd]))]
      cases pyFormatScan rest false [] kw <;> simp

/-- Scanning a placeholder name up to its closing brace performs the keyword
lookup on the accumulated name. -/
theorem pyFormatScan_name (nm : List Char) (rest : List Char)
    (kw : List (String × String)) (acc : List Char)
    (h : ∀ c ∈ nm, ¬ c = rbraceChar) :
    pyFormatScan (nm ++ rbraceChar :: rest) true acc kw
      = match kw.lookup (String.mk (acc ++ nm)) with
        | some v => (pyFormatScan rest false [] kw).map (v.data ++ ·)
        | none => none := by
  induction nm generalizing acc with
  | nil => simp [pyFormatScan]
  | cons c cs ih =>
      have hc := h c (by simp)
      simp only [List.cons_append, pyFormatScan, if_neg hc, List.append_eq]
      rw [ih _ (fun d hd => h d (by simp [hd]))]
      simp [List.append_assoc]

/-- Scanning a brace-free tail succeeds with the tail unchanged. -/
theorem pyFormatScan_tail (post : List Char) (kw : List (String × String))
    (h : ∀ c ∈ post, ¬ c = lbraceChar ∧ ¬ c = rbraceChar) :
    pyFormatScan post false [] kw = some post := by
  induction post with
  | nil => rfl
  | cons c cs ih =>
      have hc := h c (by simp)
      simp only [pyFormatScan, if_neg hc.1, if_neg hc.2]
      rw [ih (fun d hd => h d (by simp [hd]))]
      rfl

/-- Formatting a template of shape `pre\x7bname\x7dpost` with the keyword
present substitutes the keyword value. -/
theorem pyFormatScan_shape (pre nm post : List Char)
    (kw : List (String × String)) (v : String)
    (hpre : ∀ c ∈ pre, ¬ c = lbraceChar ∧ ¬ c = rbraceChar)
    (hnm : ∀ c ∈ nm, ¬ c = rbraceChar)
    (hpost : ∀ c ∈ post, ¬ c = lbraceChar ∧ ¬ c = rbraceChar)
    (hv : kw.lookup (String.mk nm) = some v) :
    pyFormatScan (pre ++ lbraceChar :: (nm ++ rbraceChar :: post)) false [] kw
      = some (pre ++ (v.data ++ post)) := by
  rw [pyFormatScan_lit _ _ _ hpre]
  have hstep : pyFormatScan (lbraceChar :: (nm ++ rbraceChar :: post)) false [] kw
      = pyFormatScan (nm ++ rbraceChar :: post) true [] kw := by
    simp [pyFormatScan]
  rw [hstep, pyFormatScan_name _ _ _ _ hnm]
  simp only [List.nil_append, hv]
  rw [pyFormatScan_tail _ _ hpost]
  rfl

/-- C6: the `ParseKanaError` constructor, given any error code and any
keyword payload supplying the placeholders of that code's template, succeeds
and stores the error code, the code name as `errname`, and the payload
unchanged as `kwargs`, with `text` equal to the formatted template — so the
structured kind and payload remain retrievable independently of the rendered
message. -/
theorem parse_kana_error_constructor_spec (errcode : ParseKanaErrorCode)
    (kwargs : List (String × String))
    (h : ∀ p ∈ ParseKanaErrorCode.placeholders errcode,
        (kwargs.lookup p).isSome = true) :
    (pyFormat errcode.value kwargs).isSome = true ∧
    mkParseKanaError errcode kwargs
      = some ⟨errcode, errcode.pyName, kwargs,
              (pyFormat errcode.value kwargs).getD ""⟩ := by
  have hfmt : (pyFormat errcode.value kwargs).isSome = true := by
    cases errcode
    case UNKNOWN_TEXT =>
      obtain ⟨v, hv⟩ := Option.isSome_iff_exists.mp (h "text" (by decide))
      rw [pyFormat,
        show (ParseKanaErrorCode.value .UNKNOWN_TEXT).data
          = "判別できない読み仮名があります: ".data
            ++ lbraceChar :: ("text".data ++ rbraceChar :: ([] : List Char))
          from by decide,
        pyFormatScan_shape _ _ _ _ v (by decide) (by decide) (by decide) hv]
      rfl
    case ACCENT_TOP =>
      obtain ⟨v, hv⟩ := Option.isSome_iff_exists.mp (h "text" (by decide))
      rw [pyFormat,
        show (ParseKanaErrorCode.value .ACCENT_TOP).data
          = "句頭にアクセントは置けません: ".data
            ++ lbraceChar :: ("text".data ++ rbraceChar :: ([] : List Char))
          from by decide,
        pyFormatScan_shape _ _ _ _ v (by decide) (by decide) (by decide) hv]
      rfl
    case ACCENT_TWICE =>
      obtain ⟨v, hv⟩ := Option.isSome_iff_exists.mp (h "text" (by decide))
      rw [pyFormat,
        show (ParseKanaErrorCode.value .ACCENT_TWICE).data
          = "1つのアクセント句に二つ以上のアクセントは置けません: ".data
            ++ lbraceChar :: ("text".data ++ rbraceChar :: ([] : List Char))
          from by decide,
        pyFormatScan_shape _ _ _ _ v (by decide) (by decide) (by decide) hv]
      rfl
    case ACCENT_NOTFOUND =>
      obtain ⟨v, hv⟩ := Option.isSome_iff_exists.mp (h "text" (by decide))
      rw [pyFormat,
        show (ParseKanaErrorCode.value .ACCENT_NOTFOUND).data
          = "アクセントを指定していないアクセント句があります: ".data
            ++ lbraceChar :: ("text".data ++ rbraceChar :: ([] : List Char))
          from by decide,
        pyFormatScan_shape _ _ _ _ v (by decide) (by decide) (by decide) hv]
      rfl
    case EMPTY_PHRASE =>
      obtain ⟨v, hv⟩ := Option.isSome_iff_exists.mp (h "position" (by decide))
      rw [pyFormat,
        show (ParseKanaErrorCode.value .EMPTY_PHRASE).data
          = ([] : List Char)
            ++ lbraceChar :: ("position".data ++ rbraceChar ::
                "番目のアクセント句が空白です".data)
          from by decide,
        pyFormatScan_shape _ _ _ _ v (by decide) (by decide) (by decide) hv]
      rfl
    case INTERROGATION_MARK_NOT_AT_END =>
      obtain ⟨v, hv⟩ := Option.isSome_iff_exists.mp (h "text" (by decide))
      rw [pyFormat,
        show (ParseKanaErrorCode.value .INTERROGATION_MARK_NOT_AT_END).data
          = "アクセント句末以外に「？」は置けません: ".data
            ++ lbraceChar :: ("text".data ++ rbraceChar :: ([] : List Char))
          from by decide,
        pyFormatScan_shape _ _ _ _ v (by decide) (by decide) (by decide) hv]
      rfl
    case INFINITE_LOOP =>
      rw [pyFormat, pyFormatScan_tail _ _ (by decide)]
      rfl
  refine ⟨hfmt, ?_⟩
  obtain ⟨t, ht⟩ := Option.isSome_iff_exists.mp hfmt
  rw [mkParseKanaError, ht]
  rfl

/-- Witness for C6: the constructor specification applied to the
`UNKNOWN_TEXT` code with a concrete payload. -/
theorem parse_kana_error_constructor_spec_witness :
    (pyFormat ParseKanaErrorCode.UNKNOWN_TEXT.value [("text", "アイ")]).isSome
        = true ∧
    mkParseKanaError .UNKNOWN_TEXT [("text", "アイ")]
      = some ⟨.UNKNOWN_TEXT, ParseKanaErrorCode.UNKNOWN_TEXT.pyName,
              [("text", "アイ")],
              (pyFormat ParseKanaErrorCode.UNKNOWN_TEXT.value
                [("text", "アイ")]).getD ""⟩ :=
  parse_kana_error_constructor_spec .UNKNOWN_TEXT [("text", "アイ")]
    (by decide)

/-- C7: when the `/accent_phrases` handler runs with `is_kana` true and
`parse_kana` raises a `ParseKanaError`, the handler returns no accent
phrases: it raises an HTTP 400 whose detail is the `ParseKanaBadRequest`
carrying exactly the error's message text, error name and error arguments. -/
theorem accent_phrases_handler_error_path
    (pk : String → Except PyParseKanaError (List AccentPhrase))
    (rep : List AccentPhrase → Int → List AccentPhrase)
    (cap : String → Int → List AccentPhrase)
    (text : String) (speaker : Int) (err : PyParseKanaError)
    (h : pk text = .error err) :
    accentPhrasesHandler pk rep cap text speaker true
      = .error ⟨400, ⟨err.text, err.errname, err.kwargs⟩⟩ := by
  simp [accentPhrasesHandler, h, mkParseKanaBadRequest]

/-- Witness for C7: the error path evaluated at a concrete failing
`parse_kana` and concrete collaborators. -/
theorem accent_phrases_handler_error_path_witness :
    accentPhrasesHandler
      (fun _ => .error ⟨.UNKNOWN_TEXT, "UNKNOWN_TEXT", [("text", "ヌ")], "m"⟩)
      (fun l _ => l) (fun _ _ => []) "ヌ" 1 true
      = .error ⟨400, ⟨"m", "UNKNOWN_TEXT", [("text", "ヌ")]⟩⟩ :=
  accent_phrases_handler_error_path _ _ _ _ _ _ rfl

/-- Structure of the `pyopenjtalk_prosody` branch of `query2tokens`: the
token list is the concatenation, over the enumerated accent phrases, of the
mora tokens of each phrase followed by exactly one terminator token. -/
theorem query2tokens_prosody_eq (q : AudioQuery) :
    query2tokens q "pyopenjtalk_prosody"
      = .ok ((q.accent_phrases.enum.map fun iap =>
          prosodyMoraTokens iap.2
            ++ [prosodyTerminator
                  (decide (q.accent_phrases.length ≤ iap.1 + 1)) iap.2]).flatten) := by
  rw [query2tokens, if_neg (by decide), if_pos rfl]
  have hfun : (fun iap : ℕ × AccentPhrase =>
      (iap.2.moras.enum.flatMap fun jm =>
        (match jm.2.consonant with
         | some c => [c.toLower]
         | none => [])
        ++ [if jm.2.vowel = "N" then jm.2.vowel else jm.2.vowel.toLower]
        ++ (if iap.2.accent = (jm.1 : Int) + 1 ∨ jm.1 = 0 then
              [if iap.2.accent = (jm.1 : Int) + 1 ∧ jm.1 = 0 then "]"
               else if jm.1 = 0 then "[" else "]"]
            else []))
      ++ [if q.accent_phrases.length > iap.1 + 1 then
            (if iap.2.pause_mora.isSome then "_" else "#")
          else (if iap.2.is_interrogative then "?" else "$")])
      = (fun iap : ℕ × AccentPhrase => prosodyMoraTokens iap.2
          ++ [prosodyTerminator
                (decide (q.accent_phrases.length ≤ iap.1 + 1)) iap.2]) := by
    funext iap
    congr 1
    by_cases hlast : q.accent_phrases.length ≤ iap.1 + 1
    · rw [if_neg (by omega)]
      simp [prosodyTerminator, hlast]
    · rw [if_pos (by omega)]
      simp [prosodyTerminator, hlast]
  exact congrArg Except.ok
    (congrArg (fun h => (q.accent_phrases.enum.map h).flatten) hfun)

/-- Replacing the interrogative flag of a non-last phrase leaves its
contribution to the prosody token list unchanged. -/
theorem prosody_entry_congr (n len : ℕ) (ap : AccentPhrase) (b : Bool)
    (h : ¬ len ≤ n + 1) :
    prosodyMoraTokens { ap with is_interrogative := b }
        ++ [prosodyTerminator (decide (len ≤ n + 1))
              { ap with is_interrogative := b }]
      = prosodyMoraTokens ap
          ++ [prosodyTerminator (decide (len ≤ n + 1)) ap] := by
  cases ap
  have hd : decide (len ≤ n + 1) = false := by simp [h]
  rw [hd]
  rfl

/-- C10: in the `pyopenjtalk_prosody` branch, `query2tokens` emits exactly
one phrase-terminator token per accent phrase — for each non-last phrase an
underscore if its pause mora is set and a hash mark otherwise, and for the
last phrase a question mark if interrogative and a dollar sign otherwise —
and the interrogative flag of a non-last phrase never affects the output. -/
theorem query2tokens_prosody_phrase_terminators (q : AudioQuery)
    (hne : q.accent_phrases ≠ []) :
    query2tokens q "pyopenjtalk_prosody"
      = .ok ((q.accent_phrases.enum.map fun iap =>
          prosodyMoraTokens iap.2
            ++ [prosodyTerminator
                  (decide (q.accent_phrases.length ≤ iap.1 + 1)) iap.2]).flatten) ∧
    (∀ (pre : List AccentPhrase) (ap : AccentPhrase)
        (post : List AccentPhrase) (b : Bool),
      q.accent_phrases = pre ++ ap :: post → post ≠ [] →
      query2tokens
          { q with accent_phrases := pre ++ { ap with is_interrogative := b } :: post }
          "pyopenjtalk_prosody"
        = query2tokens q "pyopenjtalk_prosody") := by
  refine ⟨query2tokens_prosody_eq q, ?_⟩
  intro pre ap post b hsplit hpost
  rw [query2tokens_prosody_eq, query2tokens_prosody_eq, hsplit]
  have hplen : post.length ≠ 0 := fun hz => hpost (List.length_eq_zero.mp hz)
  congr 1
  simp only [List.enum_append, List.enumFrom_cons, List.map_append,
    List.map_cons, List.flatten_append, List.flatten_cons,
    List.length_append, List.length_cons]
  congr 1
  congr 1
  exact prosody_entry_congr pre.length _ ap b (by omega)

/-- Concrete two-phrase query used to witness the C10 theorem. -/
def apWitnessA : AccentPhrase :=
  ⟨[⟨"ア", none, none, "a", 0, 0⟩], 1, none, true⟩

/-- Concrete last phrase used to witness the C10 theorem. -/
def apWitnessB : AccentPhrase :=
  ⟨[⟨"カ", some "k", some 0, "a", 0, 0⟩], 1, none, false⟩

/-- Concrete audio query used to witness the C10 theorem. -/
def qWitness : AudioQuery :=
  ⟨[apWitnessA, apWitnessB], 1, 0, 1, 1, 0, 0, 24000, false, none⟩

/-- Witness for C10: the theorem applied to a concrete two-phrase query,
with the interrogative flag of the non-last phrase flipped. -/
theorem query2tokens_prosody_phrase_terminators_witness :
    (query2tokens qWitness "pyopenjtalk_prosody"
      = .ok ((qWitness.accent_phrases.enum.map fun iap =>
          prosodyMoraTokens iap.2
            ++ [prosodyTerminator
                  (decide (qWitness.accent_phrases.length ≤ iap.1 + 1))
                  iap.2]).flatten)) ∧
    (query2tokens
        { qWitness with accent_phrases :=
            [] ++ { apWitnessA with is_interrogative := false } :: [apWitnessB] }
        "pyopenjtalk_prosody"
      = query2tokens qWitness "pyopenjtalk_prosody") :=
  ⟨(query2tokens_prosody_phrase_terminators qWitness (by decide)).1,
   (query2tokens_prosody_phrase_terminators qWitness (by decide)).2
     [] apWitnessA [apWitnessB] false rfl (by decide)⟩

/-- Modelled from the spec: the repository file voicevox_engine/kana_parser.py
(imported by run.py as `parse_kana`/`create_kana`) is not among the given
sources, so the kana codec is modelled from spec sections 3, 4 and 6.  A
`KanaEntry` is one row of the Phoneme/Kana Table: a 1-2 character katakana
token with its (optional consonant, vowel) phoneme pair. -/
structure KanaEntry where
  kana : String
  consonant : Option String
  vowel : String
deriving DecidableEq, Repr

/-- Modelled from the spec: a representative canonical Phoneme/Kana Table
(spec section 4.1) — plain vowels, a nasal, several consonant rows, and
two-character consonant+glide tokens exercising longest-prefix matching.
Each (consonant, vowel) pair maps to exactly one canonical token. -/
def kanaTable : List KanaEntry :=
  [⟨"ア", none, "a"⟩, ⟨"イ", none, "i"⟩, ⟨"ウ", none, "u"⟩,
   ⟨"エ", none, "e"⟩, ⟨"オ", none, "o"⟩, ⟨"ン", none, "N"⟩,
   ⟨"カ", some "k", "a"⟩, ⟨"キ", some "k", "i"⟩, ⟨"ク", some "k", "u"⟩,
   ⟨"ケ", some "k", "e"⟩, ⟨"コ", some "k", "o"⟩,
   ⟨"タ", some "t", "a"⟩, ⟨"ト", some "t", "o"⟩,
   ⟨"マ", some "m", "a"⟩, ⟨"ミ", some "m", "i"⟩,
   ⟨"ラ", some "r", "a"⟩, ⟨"リ", some "r", "i"⟩, ⟨"ル", some "r", "u"⟩,
   ⟨"レ", some "r", "e"⟩, ⟨"ロ", some "r", "o"⟩,
   ⟨"キャ", some "ky", "a"⟩, ⟨"キュ", some "ky", "u"⟩, ⟨"キョ", some "ky", "o"⟩]

/-- Lookup of a notation substring in the Phoneme/Kana Table. -/
def lookupKana (s : String) : Option KanaEntry :=
  kanaTable.find? (fun e => e.kana == s)

/-- Modelled from the spec: the `ParseError` tagged variants of spec section 3
for the missing kana_parser.py decode path. -/
inductive ParseError where
  | unknownToken (text : String)
  | accentBeforePhraseStart (text : String)
  | duplicateAccent (text : String)
  | missingAccent (text : String)
  | emptyPhrase (position : ℕ)
  | interrogationNotAtEnd (text : String)
  | infiniteLoopGuard
deriving DecidableEq, Repr

/-- Modelled from the spec: the typed token stream of the tokenizer (spec
section 4.2).  A kana token carries its table entry (token text and phoneme
pair). -/
inductive KanaToken where
  | kana (entry : KanaEntry)
  | devoice
  | accentMark
  | interrogative
  | phraseSep
  | pausedPhraseSep
deriving DecidableEq, Repr

/-- Control symbol of the notation, if the character is one. -/
def controlToken (c : Char) : Option KanaToken :=
  if c = '_' then some .devoice
  else if c = accentSymbol then some .accentMark
  else if c = '？' then some .interrogative
  else if c = '/' then some .phraseSep
  else if c = '、' then some .pausedPhraseSep
  else none

/-- Source text of one token. -/
def tokenString : KanaToken → String
  | .kana e => e.kana
  | .devoice => "_"
  | .accentMark => accentStr
  | .interrogative => "？"
  | .phraseSep => "/"
  | .pausedPhraseSep => "、"

/-- Concatenated source text of a token list. -/
def renderTokens : List KanaToken → String
  | [] => ""
  | t :: ts => tokenString t ++ renderTokens ts

/-- Modelled from the spec: the tokenizer (spec section 4.2) for the missing
kana_parser.py — scan left to right, longest match against the Kana Table
first (table tokens are 1-2 characters), then single-character control
symbols, otherwise fail with `unknownToken` carrying the remaining suffix.
Each step consumes at least one character, so the structural recursion
itself discharges the forward-progress obligation and `infiniteLoopGuard`
is never raised. -/
def tokenize : List Char → Except ParseError (List KanaToken)
  | [] => .ok []
  | [c] =>
      match lookupKana (String.mk [c]) with
      | some e => .ok [.kana e]
      | none =>
          match controlToken c with
          | some t => .ok [t]
          | none => .error (.unknownToken (String.mk [c]))
  | c :: c₂ :: cs =>
      match lookupKana (String.mk [c, c₂]) with
      | some e => (tokenize cs).map (KanaToken.kana e :: ·)
      | none =>
          match lookupKana (String.mk [c]) with
          | some e => (tokenize (c₂ :: cs)).map (KanaToken.kana e :: ·)
          | none =>
              match controlToken c with
              | some t => (tokenize (c₂ :: cs)).map (t :: ·)
              | none => .error (.unknownToken (String.mk (c :: c₂ :: cs)))

/-- Modelled from the spec: split of the token stream into phrase groups at
separators (spec section 4.3 step 1); each group carries the flag of the
boundary ending it (true when the separator was the paused variant), the
final group carrying false. -/
def splitPhrases : List KanaToken → List (List KanaToken × Bool)
  | [] => [([], false)]
  | .phraseSep :: rest => ([], false) :: splitPhrases rest
  | .pausedPhraseSep :: rest => ([], true) :: splitPhrases rest
  | t :: rest =>
      match splitPhrases rest with
      | [] => [([t], false)]
      | (g, b) :: gs => (t :: g, b) :: gs

/-- Character-wise upper-casing of a string (the model vowels are ASCII). -/
def strUpper (s : String) : String := String.mk (s.data.map Char.toUpper)

/-- Character-wise lower-casing of a string (the model vowels are ASCII). -/
def strLower (s : String) : String := String.mk (s.data.map Char.toLower)

/-- Vowel phonemes that can be devoiced (spec section 4.3: the devoice mark
turns the vowel into its voiceless variant). -/
def devoiceableVowels : List String := ["a", "i", "u", "e", "o"]

/-- Voiceless vowel variants, written as the uppercase phonemes that the
shared data model uses for devoiced moras. -/
def unvoicedVowels : List String := ["A", "I", "U", "E", "O"]

/-- Mora built from one kana table entry by the decode path; the codec fills
length and pitch fields with 0 for downstream stages to overwrite. -/
def moraOfEntry (e : KanaEntry) : Mora :=
  ⟨e.kana, e.consonant, e.consonant.map (fun _ => (0 : ℚ)), e.vowel, 0, 0⟩

/-- Devoiced mora built from one kana table entry: the vowel phoneme is
replaced by its voiceless (uppercase) variant. -/
def unvoicedMoraOfEntry (e : KanaEntry) : Mora :=
  ⟨e.kana, e.consonant, e.consonant.map (fun _ => (0 : ℚ)),
   strUpper e.vowel, 0, 0⟩

/-- Modelled from the spec: the pause mora attached after a paused boundary
(spec section 3: a silence mora without consonant). -/
def pauseMora : Mora := ⟨"、", none, none, "pau", 0, 0⟩

/-- Modelled from the spec: the phrase walker of spec section 4.3 step 2 for
the missing kana_parser.py.  Arguments: remaining tokens, number of moras
already appended in this phrase, whether an accent index was already
recorded.  Returns the moras contributed by the remaining tokens, the accent
index recorded in them (position of the mora the accent mark follows), and
the interrogative flag.  A devoice mark must sit immediately before a
devoiceable kana token; the interrogative mark is legal only as the last
token of the last phrase group. -/
def goPhrase (phraseText : String) (isLast : Bool) :
    List KanaToken → ℕ → Bool → Except ParseError (List Mora × Option ℕ × Bool)
  | [], _, _ => .ok ([], none, false)
  | .kana e :: rest, k, hasAcc =>
      (goPhrase phraseText isLast rest (k + 1) hasAcc).map
        (fun r => (moraOfEntry e :: r.1, r.2.1, r.2.2))
  | .devoice :: .kana e :: rest, k, hasAcc =>
      if e.vowel ∈ devoiceableVowels then
        (goPhrase phraseText isLast rest (k + 1) hasAcc).map
          (fun r => (unvoicedMoraOfEntry e :: r.1, r.2.1, r.2.2))
      else .error (.unknownToken ("_" ++ e.kana))
  | .devoice :: _, _, _ => .error (.unknownToken "_")
  | .accentMark :: rest, k, hasAcc =>
      if k = 0 then .error (.accentBeforePhraseStart phraseText)
      else if hasAcc then .error (.duplicateAccent phraseText)
      else (goPhrase phraseText isLast rest k true).map
        (fun r => (r.1, some k, r.2.2))
  | .interrogative :: rest, _, _ =>
      if isLast ∧ rest = [] then .ok ([], none, true)
      else .error (.interrogationNotAtEnd phraseText)
  | .phraseSep :: _, _, _ => .error (.unknownToken "/")
  | .pausedPhraseSep :: _, _, _ => .error (.unknownToken "、")

/-- Modelled from the spec: parsing of one phrase group (spec section 4.3
steps 2-4) — an empty group fails with its 1-based position, a group whose
walk records no accent fails with `missingAccent` carrying the phrase text,
and otherwise the accent phrase is assembled, attaching the pause mora when
the ending boundary was the paused separator. -/
def parsePhrase (g : List KanaToken) (pos : ℕ) (isLast : Bool)
    (paused : Bool) : Except ParseError AccentPhrase :=
  if g.isEmpty then .error (.emptyPhrase pos)
  else
    match goPhrase (renderTokens g) isLast g 0 false with
    | .error e => .error e
    | .ok (_, none, _) => .error (.missingAccent (renderTokens g))
    | .ok (moras, some a, interr) =>
        .ok ⟨moras, (a : Int), if paused then some pauseMora else none, interr⟩

/-- Modelled from the spec: parsing of the phrase-group list in order with
1-based positions; the first failure aborts the whole decode. -/
def parseGroups : List (List KanaToken × Bool) → ℕ →
    Except ParseError (List AccentPhrase)
  | [], _ => .ok []
  | (g, paused) :: rest, pos =>
      match parsePhrase g pos rest.isEmpty paused with
      | .error e => .error e
      | .ok ap =>
          match parseGroups rest (pos + 1) with
          | .error e => .error e
          | .ok aps => .ok (ap :: aps)

/-- Modelled from the spec: `decode` / `parse_kana` of the missing
kana_parser.py (spec section 6) — tokenizer, phrase split, then phrase
parsing; all-or-nothing. -/
def parse_kana (s : String) : Except ParseError (List AccentPhrase) :=
  match tokenize s.data with
  | .error e => .error e
  | .ok ts => parseGroups (splitPhrases ts) 1

/-- Canonical display token of a phoneme pair (the reverse mapping of spec
section 4.1). -/
def canonicalKana (c : Option String) (v : String) : String :=
  match kanaTable.find? (fun e => e.consonant == c && e.vowel == v) with
  | some e => e.kana
  | none => ""

/-- Modelled from the spec: serialization of one mora (spec section 4.4) —
a devoice marker when the vowel is voiceless, then the canonical table token
of the (consonant, voiced vowel) pair. -/
def encodeMora (m : Mora) : String :=
  (if m.vowel ∈ unvoicedVowels then "_" else "")
    ++ canonicalKana m.consonant
        (if m.vowel ∈ unvoicedVowels then strLower m.vowel else m.vowel)

/-- Modelled from the spec: serialization of a mora run starting at mora
index `k`, emitting the accent mark immediately after mora number `a`. -/
def encodeChunk : List Mora → ℕ → Option ℕ → String
  | [], k, a => if a = some k then accentStr else ""
  | m :: ms, k, a =>
      (if a = some k then accentStr else "")
        ++ encodeMora m ++ encodeChunk ms (k + 1) a

/-- Serialized body of one accent phrase: its moras with the accent mark
after the mora at the accent index. -/
def encodePhraseBody (ap : AccentPhrase) : String :=
  encodeChunk ap.moras 0 (some ap.accent.toNat)

/-- Modelled from the spec: `encode` / `create_kana` of the missing
kana_parser.py (spec section 4.4) — each phrase body, the interrogative mark
on the last phrase only, and between phrases the paused separator when the
phrase carries a pause mora. -/
def create_kana : List AccentPhrase → String
  | [] => ""
  | ap :: rest =>
      encodePhraseBody ap
        ++ (if rest.isEmpty then (if ap.is_interrogative then "？" else "")
            else (if ap.pause_mora.isSome then "、" else "/"))
        ++ create_kana rest

/-- Rendered source text of a phrase-group list, separators included. -/
def renderGroups : List (List KanaToken × Bool) → String
  | [] => ""
  | (g, paused) :: rest =>
      renderTokens g
        ++ (if rest.isEmpty then "" else (if paused then "、" else "/"))
        ++ renderGroups rest

/-- Concatenation of string constructors. -/
theorem strMk_append (a b : List Char) :
    String.mk a ++ String.mk b = String.mk (a ++ b) := rfl

/-- Kana lookup success yields a table entry with the looked-up text. -/
theorem lookupKana_eq {s : String} {e : KanaEntry}
    (h : lookupKana s = some e) : e ∈ kanaTable ∧ e.kana = s := by
  refine ⟨List.mem_of_find?_eq_some h, ?_⟩
  have h2 := List.find?_some h
  simpa [beq_iff_eq] using h2

/-- Control tokens render back to their source character. -/
theorem controlToken_string {c : Char} {t : KanaToken}
    (h : controlToken c = some t) : tokenString t = String.mk [c] := by
  unfold controlToken at h
  split_ifs at h with h1 h2 h3 h4 h5 <;>
    first
    | (cases h; subst h1; rfl)
    | (cases h; subst h2; rfl)
    | (cases h; subst h3; rfl)
    | (cases h; subst h4; rfl)
    | (cases h; subst h5; rfl)
    | cases h

/-- Control tokens are never kana tokens. -/
theorem controlToken_ne_kana {c : Char} {e : KanaEntry}
    (h : controlToken c = some (.kana e)) : False := by
  unfold controlToken at h
  split_ifs at h <;> cases h

/-- Inversion of a successful `Except.map`. -/
theorem exceptMap_ok {ε α β : Type} {x : Except ε α} {f : α → β} {b : β}
    (h : x.map f = .ok b) : ∃ a, x = .ok a ∧ b = f a := by
  cases x with
  | error e => simp [Except.map] at h
  | ok a => exact ⟨a, rfl, by simpa [Except.map] using h.symm⟩

/-- Soundness of the tokenizer: a successful tokenization renders back to
the exact input string, and every kana token it produces is a table entry. -/
theorem tokenize_sound :
    ∀ (cs : List Char) (ts : List KanaToken), tokenize cs = .ok ts →
      renderTokens ts = String.mk cs ∧
      ∀ e, KanaToken.kana e ∈ ts → e ∈ kanaTable := by
  intro cs
  induction cs using tokenize.induct with
  | case1 =>
      intro ts h
      simp only [tokenize] at h
      cases h
      exact ⟨rfl, fun e he => by simp at he⟩
  | case2 c e hl =>
      intro ts h
      simp only [tokenize, hl] at h
      cases h
      obtain ⟨hmem, hk⟩ := lookupKana_eq hl
      refine ⟨?_, ?_⟩
      · show e.kana ++ "" = String.mk [c]
        rw [String.append_empty, hk]
      · intro e' he'
        simp only [List.mem_singleton] at he'
        cases he'
        exact hmem
  | case3 c hl t hc =>
      intro ts h
      simp only [tokenize, hl, hc] at h
      cases h
      refine ⟨?_, ?_⟩
      · show tokenString t ++ "" = String.mk [c]
        rw [String.append_empty, controlToken_string hc]
      · intro e' he'
        simp only [List.mem_singleton] at he'
        cases he'
        exact absurd hc controlToken_ne_kana
  | case4 c hl hc =>
      intro ts h
      simp only [tokenize, hl, hc] at h
      cases h
  | case5 c c₂ cs e hl ih =>
      intro ts h
      simp only [tokenize, hl] at h
      obtain ⟨ts', hts', rfl⟩ := exceptMap_ok h
      obtain ⟨hr, hm⟩ := ih ts' hts'
      obtain ⟨hmem, hk⟩ := lookupKana_eq hl
      refine ⟨?_, ?_⟩
      · show e.kana ++ renderTokens ts' = String.mk (c :: c₂ :: cs)
        rw [hk, hr, strMk_append]
        rfl
      · intro e' he'
        rcases List.mem_cons.mp he' with he' | he'
        · cases he'; exact hmem
        · exact hm e' he'
  | case6 c c₂ cs hl2 e hl ih =>
      intro ts h
      simp only [tokenize, hl2, hl] at h
      obtain ⟨ts', hts', rfl⟩ := exceptMap_ok h
      obtain ⟨hr, hm⟩ := ih ts' hts'
      obtain ⟨hmem, hk⟩ := lookupKana_eq hl
      refine ⟨?_, ?_⟩
      · show e.kana ++ renderTokens ts' = String.mk (c :: c₂ :: cs)
        rw [hk, hr, strMk_append]
        rfl
      · intro e' he'
        rcases List.mem_cons.mp he' with he' | he'
        · cases he'; exact hmem
        · exact hm e' he'
  | case7 c c₂ cs hl2 hl t hc ih =>
      intro ts h
      simp only [tokenize, hl2, hl, hc] at h
      obtain ⟨ts', hts', rfl⟩ := exceptMap_ok h
      obtain ⟨hr, hm⟩ := ih ts' hts'
      refine ⟨?_, ?_⟩
      · show tokenString t ++ renderTokens ts' = String.mk (c :: c₂ :: cs)
        rw [controlToken_string hc, hr, strMk_append]
        rfl
      · intro e' he'
        rcases List.mem_cons.mp he' with he' | he'
        · cases he'; exact absurd hc controlToken_ne_kana
        · exact hm e' he'
  | case8 c c₂ cs hl2 hl hc =>
      intro ts h
      simp only [tokenize, hl2, hl, hc] at h
      cases h

/-- Phrase splitting always yields at least one group. -/
theorem splitPhrases_ne_nil (ts : List KanaToken) : splitPhrases ts ≠ [] := by
  induction ts using splitPhrases.induct with
  | case1 => simp [splitPhrases]
  | case2 rest ih => simp [splitPhrases]
  | case3 rest ih => simp [splitPhrases]
  | case4 t rest h1 h2 hsp ih => exact absurd hsp ih
  | case5 t rest h1 h2 g b gs hsp ih =>
      cases t <;>
        first
        | (exact absurd rfl h1)
        | (exact absurd rfl h2)
        | simp [splitPhrases, hsp]

/-- Rendering the split groups with their separators reproduces the rendered
token stream. -/
theorem renderGroups_splitPhrases (ts : List KanaToken) :
    renderGroups (splitPhrases ts) = renderTokens ts := by
  induction ts using splitPhrases.induct with
  | case1 => rfl
  | case2 rest ih =>
      have hne := splitPhrases_ne_nil rest
      simp only [splitPhrases, renderGroups, renderTokens]
      rw [if_neg (by simpa [List.isEmpty_iff] using hne), ih]
      rfl
  | case3 rest ih =>
      have hne := splitPhrases_ne_nil rest
      simp only [splitPhrases, renderGroups, renderTokens]
      rw [if_neg (by simpa [List.isEmpty_iff] using hne), ih]
      rfl
  | case4 t rest h1 h2 hsp ih => exact absurd hsp (splitPhrases_ne_nil rest)
  | case5 t rest h1 h2 g b gs hsp ih =>
      rw [hsp] at ih
      have step : splitPhrases (t :: rest) = (t :: g, b) :: gs := by
        cases t <;>
          first
          | (exact absurd rfl h1)
          | (exact absurd rfl h2)
          | simp [splitPhrases, hsp]
      rw [step]
      show (tokenString t ++ renderTokens g)
          ++ (if gs.isEmpty then "" else if b then "、" else "/")
          ++ renderGroups gs
        = tokenString t ++ renderTokens rest
      rw [← ih]
      show (tokenString t ++ renderTokens g)
          ++ (if gs.isEmpty then "" else if b then "、" else "/")
          ++ renderGroups gs
        = tokenString t ++ (renderTokens g
            ++ (if gs.isEmpty then "" else if b then "、" else "/")
            ++ renderGroups gs)
      simp [String.append_assoc]

/-- Tokens of any split group come from the original stream. -/
theorem mem_splitPhrases :
    ∀ (ts : List KanaToken) (g : List KanaToken) (b : Bool),
      (g, b) ∈ splitPhrases ts → ∀ t ∈ g, t ∈ ts := by
  intro ts
  induction ts using splitPhrases.induct with
  | case1 =>
      intro g b hg t ht
      simp only [splitPhrases, List.mem_singleton] at hg
      cases hg
      simp at ht
  | case2 rest ih =>
      intro g b hg t ht
      simp only [splitPhrases, List.mem_cons] at hg
      rcases hg with hg | hg
      · cases hg; simp at ht
      · exact List.mem_cons_of_mem _ (ih g b hg t ht)
  | case3 rest ih =>
      intro g b hg t ht
      simp only [splitPhrases, List.mem_cons] at hg
      rcases hg with hg | hg
      · cases hg; simp at ht
      · exact List.mem_cons_of_mem _ (ih g b hg t ht)
  | case4 t₀ rest h1 h2 hsp ih => exact absurd hsp (splitPhrases_ne_nil rest)
  | case5 t₀ rest h1 h2 g₀ b₀ gs hsp ih =>
      intro g b hg t ht
      have step : splitPhrases (t₀ :: rest) = (t₀ :: g₀, b₀) :: gs := by
        cases t₀ <;>
          first
          | (exact absurd rfl h1)
          | (exact absurd rfl h2)
          | simp [splitPhrases, hsp]
      rw [step] at hg
      rcases List.mem_cons.mp hg with hg | hg
      · cases hg
        rcases List.mem_cons.mp ht with ht | ht
        · exact ht ▸ List.mem_cons_self _ _
        · exact List.mem_cons_of_mem _
            (ih g₀ b₀ (hsp ▸ List.mem_cons_self _ _) t ht)
      · exact List.mem_cons_of_mem _
          (ih g b (hsp ▸ List.mem_cons_of_mem _ hg) t ht)

/-- Phoneme pairs are pairwise distinct across the table, so the reverse
mapping is unambiguous (spec section 4.1). -/
theorem kanaTable_pairs_distinct :
    kanaTable.Pairwise
      (fun x y => ¬(x.consonant = y.consonant ∧ x.vowel = y.vowel)) := by
  decide

/-- Reverse lookup of a table entry's phoneme pair returns its own token. -/
theorem canonicalKana_of_mem {e : KanaEntry} (hmem : e ∈ kanaTable) :
    canonicalKana e.consonant e.vowel = e.kana := by
  unfold canonicalKana
  have hsome : (kanaTable.find?
      (fun x => x.consonant == e.consonant && x.vowel == e.vowel)).isSome :=
    List.find?_isSome.mpr ⟨e, hmem, by simp⟩
  obtain ⟨e', he'⟩ := Option.isSome_iff_exists.mp hsome
  rw [he']
  have hmem' := List.mem_of_find?_eq_some he'
  have hpred := List.find?_some he'
  simp only [Bool.and_eq_true, beq_iff_eq] at hpred
  by_cases heq : e' = e
  · rw [heq]
  · have hsym : Symmetric
        (fun x y : KanaEntry => ¬(x.consonant = y.consonant ∧ x.vowel = y.vowel)) :=
      fun x y hxy hyx => hxy ⟨hyx.1.symm, hyx.2.symm⟩
    exact absurd ⟨hpred.1, hpred.2⟩
      (kanaTable_pairs_distinct.forall hsym hmem' hmem heq)

/-- Table entries carry voiced vowels only. -/
theorem kanaTable_vowel_voiced :
    ∀ e ∈ kanaTable, e.vowel ∉ unvoicedVowels := by
  decide

/-- Devoiceable vowels go to the unvoiced set by upper-casing and back by
lower-casing. -/
theorem unvoiced_vowel_roundtrip (v : String) (h : v ∈ devoiceableVowels) :
    strUpper v ∈ unvoicedVowels ∧ strLower (strUpper v) = v := by
  simp only [devoiceableVowels, List.mem_cons, List.mem_singleton,
    List.not_mem_nil, or_false] at h
  rcases h with rfl | rfl | rfl | rfl | rfl <;> exact ⟨by decide, by decide⟩

/-- Serializing the mora built from a table entry emits the entry's token. -/
theorem encodeMora_voiced {e : KanaEntry} (hmem : e ∈ kanaTable) :
    encodeMora (moraOfEntry e) = e.kana := by
  have hnv : e.vowel ∉ unvoicedVowels := kanaTable_vowel_voiced e hmem
  show (if e.vowel ∈ unvoicedVowels then "_" else "")
      ++ canonicalKana e.consonant
          (if e.vowel ∈ unvoicedVowels then strLower e.vowel else e.vowel)
    = e.kana
  rw [if_neg hnv, if_neg hnv, String.empty_append]
  exact canonicalKana_of_mem hmem

/-- Serializing the devoiced mora built from a table entry emits the devoice
marker followed by the entry's token. -/
theorem encodeMora_unvoiced {e : KanaEntry} (hmem : e ∈ kanaTable)
    (hv : e.vowel ∈ devoiceableVowels) :
    encodeMora (unvoicedMoraOfEntry e) = "_" ++ e.kana := by
  obtain ⟨h1, h2⟩ := unvoiced_vowel_roundtrip e.vowel hv
  show (if strUpper e.vowel ∈ unvoicedVowels then "_" else "")
      ++ canonicalKana e.consonant
          (if strUpper e.vowel ∈ unvoicedVowels then strLower (strUpper e.vowel)
           else strUpper e.vowel)
    = "_" ++ e.kana
  rw [if_pos h1, if_pos h1, h2, canonicalKana_of_mem hmem]

/-- An accent index strictly below the starting mora index never emits a
mark in the chunk serializer. -/
theorem encodeChunk_none_of_lt (δ : List Mora) (k a₀ : ℕ) (h : a₀ < k) :
    encodeChunk δ k (some a₀) = encodeChunk δ k none := by
  induction δ generalizing k with
  | nil => simp [encodeChunk, show a₀ ≠ k by omega]
  | cons m ms ih =>
      simp [encodeChunk, show a₀ ≠ k by omega, ih (k + 1) (by omega)]

/-- Serializing a chunk whose accent index equals the starting mora index
emits the accent mark first. -/
theorem encodeChunk_start (δ : List Mora) (k : ℕ) :
    encodeChunk δ k (some k) = accentStr ++ encodeChunk δ k none := by
  cases δ with
  | nil => simp [encodeChunk, String.append_empty]
  | cons m ms =>
      simp [encodeChunk, encodeChunk_none_of_lt ms (k + 1) k (by omega),
        String.append_assoc, String.empty_append]

/-- Soundness of the phrase walker: a successful walk renders back to the
serialized chunk (accent mark after the recorded mora, interrogative mark at
the end), the recorded accent index is at least the starting index, a walk
entered with an accent already recorded records no further accent, and the
interrogative flag is only set in the last phrase. -/
theorem goPhrase_sound (pt : String) (isLast : Bool) :
    ∀ (rest : List KanaToken) (k : ℕ) (hasAcc : Bool),
      (∀ e, KanaToken.kana e ∈ rest → e ∈ kanaTable) →
      ∀ (δ : List Mora) (a : Option ℕ) (f : Bool),
      goPhrase pt isLast rest k hasAcc = .ok (δ, a, f) →
      renderTokens rest = encodeChunk δ k a ++ (if f then "？" else "")
      ∧ (∀ a₀, a = some a₀ → k ≤ a₀)
      ∧ (hasAcc = true → a = none)
      ∧ (f = true → isLast = true) := by
  intro rest k hasAcc
  induction rest, k, hasAcc using goPhrase.induct pt isLast with
  | case1 k hasAcc =>
      intro htab δ a f h
      simp only [goPhrase, Except.ok.injEq, Prod.mk.injEq] at h
      obtain ⟨rfl, rfl, rfl⟩ := h
      refine ⟨?_, by simp, by simp, by simp⟩
      simp [renderTokens, encodeChunk, String.append_empty]
  | case2 e rest k hasAcc ih =>
      intro htab δ a f h
      simp only [goPhrase] at h
      obtain ⟨r, hrec, heq⟩ := exceptMap_ok h
      simp only [Prod.mk.injEq] at heq
      obtain ⟨rfl, rfl, rfl⟩ := heq
      have hmem : e ∈ kanaTable := htab e (List.mem_cons_self _ _)
      obtain ⟨hr, hbound, hacc, hf⟩ :=
        ih (fun e' he' => htab e' (List.mem_cons_of_mem _ he'))
          r.1 r.2.1 r.2.2 hrec
      refine ⟨?_, fun a₀ ha₀ => by have := hbound a₀ ha₀; omega, hacc, hf⟩
      have hne : ¬ r.2.1 = some k := by
        intro hh
        have := hbound k hh
        omega
      show tokenString (.kana e) ++ renderTokens rest = _
      rw [tokenString, hr, encodeChunk, if_neg hne, encodeMora_voiced hmem]
      simp [String.append_assoc, String.empty_append]
  | case3 e rest k hasAcc hdev ih =>
      intro htab δ a f h
      simp only [goPhrase, if_pos hdev] at h
      obtain ⟨r, hrec, heq⟩ := exceptMap_ok h
      simp only [Prod.mk.injEq] at heq
      obtain ⟨rfl, rfl, rfl⟩ := heq
      have hmem : e ∈ kanaTable :=
        htab e (List.mem_cons_of_mem _ (List.mem_cons_self _ _))
      obtain ⟨hr, hbound, hacc, hf⟩ :=
        ih (fun e' he' =>
          htab e' (List.mem_cons_of_mem _ (List.mem_cons_of_mem _ he')))
          r.1 r.2.1 r.2.2 hrec
      refine ⟨?_, fun a₀ ha₀ => by have := hbound a₀ ha₀; omega, hacc, hf⟩
      have hne : ¬ r.2.1 = some k := by
        intro hh
        have := hbound k hh
        omega
      show tokenString .devoice
          ++ (tokenString (.kana e) ++ renderTokens rest) = _
      rw [tokenString, tokenString, hr, encodeChunk, if_neg hne,
        encodeMora_unvoiced hmem hdev]
      simp [String.append_assoc, String.empty_append]
  | case4 e rest k hasAcc hnotdev =>
      intro htab δ a f h
      simp [goPhrase, hnotdev] at h
  | case5 tail k hasAcc htail =>
      intro htab δ a f h
      have heq : goPhrase pt isLast (.devoice :: tail) k hasAcc
          = .error (.unknownToken "_") := by
        cases tail with
        | nil => rfl
        | cons t ts =>
            cases t with
            | kana e => exact absurd rfl (htail e ts)
            | devoice => rfl
            | accentMark => rfl
            | interrogative => rfl
            | phraseSep => rfl
            | pausedPhraseSep => rfl
      rw [heq] at h
      cases h
  | case6 rest hasAcc =>
      intro htab δ a f h
      simp [goPhrase] at h
  | case7 rest k hknz =>
      intro htab δ a f h
      simp [goPhrase, hknz] at h
  | case8 rest k hasAcc hknz hnotacc ih =>
      intro htab δ a f h
      have hfalse : hasAcc = false := by
        cases hasAcc
        · rfl
        · exact absurd rfl hnotacc
      subst hfalse
      rw [show goPhrase pt isLast (.accentMark :: rest) k false
          = (goPhrase pt isLast rest k true).map
              (fun r => (r.1, some k, r.2.2)) from by
        simp [goPhrase, hknz]] at h
      obtain ⟨r, hrec, heq⟩ := exceptMap_ok h
      simp only [Prod.mk.injEq] at heq
      obtain ⟨rfl, rfl, rfl⟩ := heq
      obtain ⟨hr, hbound, hacc, hf⟩ :=
        ih (fun e' he' => htab e' (List.mem_cons_of_mem _ he'))
          r.1 r.2.1 r.2.2 hrec
      have ha' : r.2.1 = none := hacc rfl
      rw [ha'] at hr
      refine ⟨?_, ?_, ?_, hf⟩
      · show tokenString .accentMark ++ renderTokens rest = _
        rw [tokenString, hr, encodeChunk_start]
        simp [String.append_assoc]
      · intro a₀ ha₀
        injection ha₀ with ha₀
        omega
      · intro hh
        exact Bool.noConfusion hh
  | case9 rest k hasAcc hcond =>
      intro htab δ a f h
      simp only [goPhrase, if_pos hcond, Except.ok.injEq, Prod.mk.injEq] at h
      obtain ⟨rfl, rfl, rfl⟩ := h
      obtain ⟨hl, hrest⟩ := hcond
      subst hrest
      refine ⟨?_, by simp, by simp, fun _ => hl⟩
      show tokenString .interrogative ++ renderTokens [] = _
      simp [tokenString, renderTokens, encodeChunk, String.append_empty,
        String.empty_append]
  | case10 rest k hasAcc hncond =>
      intro htab δ a f h
      simp [goPhrase, hncond] at h
  | case11 tail k hasAcc =>
      intro htab δ a f h
      simp [goPhrase] at h
  | case12 tail k hasAcc =>
      intro htab δ a f h
      simp [goPhrase] at h

/-- Soundness of single-phrase parsing: a successfully parsed phrase encodes
back (body plus interrogative mark) to the phrase group's exact text, a
non-last phrase is never interrogative, and the pause mora is attached
exactly when the ending boundary was paused. -/
theorem parsePhrase_sound {g : List KanaToken} {pos : ℕ}
    {isLast paused : Bool} {ap : AccentPhrase}
    (htab : ∀ e, KanaToken.kana e ∈ g → e ∈ kanaTable)
    (h : parsePhrase g pos isLast paused = .ok ap) :
    encodePhraseBody ap ++ (if ap.is_interrogative then "？" else "")
        = renderTokens g
    ∧ (isLast = false → ap.is_interrogative = false)
    ∧ ap.pause_mora.isSome = paused := by
  unfold parsePhrase at h
  by_cases hemp : g.isEmpty
  · rw [if_pos hemp] at h
    cases h
  · rw [if_neg hemp] at h
    cases hgo : goPhrase (renderTokens g) isLast g 0 false with
    | error e => rw [hgo] at h; cases h
    | ok r =>
        obtain ⟨δ, a, f⟩ := r
        rw [hgo] at h
        cases a with
        | none => cases h
        | some a₀ =>
            simp only [Except.ok.injEq] at h
            subst h
            obtain ⟨hr, hbound, hacc, hf⟩ :=
              goPhrase_sound (renderTokens g) isLast g 0 false htab
                δ (some a₀) f hgo
            refine ⟨?_, ?_, ?_⟩
            · show encodeChunk δ 0 (some ((a₀ : Int)).toNat) ++ _ = _
              rw [Int.toNat_natCast]
              exact hr.symm
            · intro hl
              cases hft : f
              · rfl
              · rw [hf hft] at hl
                cases hl
            · cases paused <;> simp

/-- Parsing a non-empty group list yields a non-empty phrase list. -/
theorem parseGroups_cons_ok {gb : List KanaToken × Bool}
    {gs : List (List KanaToken × Bool)} {pos : ℕ} {ps : List AccentPhrase}
    (h : parseGroups (gb :: gs) pos = .ok ps) :
    ∃ ap aps, ps = ap :: aps := by
  obtain ⟨g, paused⟩ := gb
  simp only [parseGroups] at h
  cases hp : parsePhrase g pos gs.isEmpty paused with
  | error e => rw [hp] at h; cases h
  | ok ap =>
      rw [hp] at h
      cases hr : parseGroups gs (pos + 1) with
      | error e => rw [hr] at h; cases h
      | ok aps =>
          rw [hr] at h
          simp only [Except.ok.injEq] at h
          exact ⟨ap, aps, h.symm⟩

/-- Soundness of group-list parsing: a successful parse serializes back to
the rendered group list, separators included. -/
theorem parseGroups_sound :
    ∀ (gs : List (List KanaToken × Bool)) (pos : ℕ) (ps : List AccentPhrase),
      (∀ g b, (g, b) ∈ gs → ∀ e, KanaToken.kana e ∈ g → e ∈ kanaTable) →
      parseGroups gs pos = .ok ps →
      create_kana ps = renderGroups gs := by
  intro gs
  induction gs with
  | nil =>
      intro pos ps _ h
      simp only [parseGroups, Except.ok.injEq] at h
      subst h
      rfl
  | cons gb rest ih =>
      obtain ⟨g, paused⟩ := gb
      intro pos ps htab h
      simp only [parseGroups] at h
      cases hp : parsePhrase g pos rest.isEmpty paused with
      | error e => rw [hp] at h; cases h
      | ok ap =>
          rw [hp] at h
          cases hr : parseGroups rest (pos + 1) with
          | error e => rw [hr] at h; cases h
          | ok aps =>
              rw [hr] at h
              simp only [Except.ok.injEq] at h
              subst h
              have htabg : ∀ e, KanaToken.kana e ∈ g → e ∈ kanaTable :=
                htab g paused (List.mem_cons_self _ _)
              obtain ⟨hbody, hinterr, hpause⟩ := parsePhrase_sound htabg hp
              have ihh := ih (pos + 1) aps
                (fun g' b' hm => htab g' b' (List.mem_cons_of_mem _ hm)) hr
              show encodePhraseBody ap
                  ++ (if aps.isEmpty then
                        (if ap.is_interrogative then "？" else "")
                      else (if ap.pause_mora.isSome then "、" else "/"))
                  ++ create_kana aps
                = renderTokens g
                  ++ (if rest.isEmpty then ""
                      else (if paused then "、" else "/"))
                  ++ renderGroups rest
              cases rest with
              | nil =>
                  simp only [parseGroups, Except.ok.injEq] at hr
                  subst hr
                  rw [ihh]
                  show encodePhraseBody ap
                      ++ (if ap.is_interrogative then "？" else "") ++ ""
                    = renderTokens g ++ "" ++ ""
                  rw [String.append_empty, String.append_empty,
                    String.append_empty, hbody]
              | cons gb' rest' =>
                  obtain ⟨ap₂, aps₂, haps⟩ := parseGroups_cons_ok hr
                  have hapsne : aps.isEmpty = false := by
                    rw [haps]
                    rfl
                  rw [hapsne, ihh, hpause]
                  have hfle : ap.is_interrogative = false := hinterr rfl
                  have hb := hbody
                  rw [hfle] at hb
                  simp only [Bool.false_eq_true, if_false,
                    String.append_empty] at hb
                  rw [hb]
                  show renderTokens g ++ _ ++ _ = renderTokens g ++ _ ++ _
                  rfl

/-- C1: round-trip of the kana codec — for every notation string `s` that
`parse_kana` (decode) accepts, re-encoding the result with `create_kana`
returns `s` exactly.  The modelled Phoneme/Kana Table contains canonical
tokens only, so every accepted string uses canonical tokens. -/
theorem parse_kana_roundtrip (s : String) (ps : List AccentPhrase)
    (h : parse_kana s = .ok ps) : create_kana ps = s := by
  unfold parse_kana at h
  cases htok : tokenize s.data with
  | error e => rw [htok] at h; cases h
  | ok ts =>
      rw [htok] at h
      obtain ⟨hrender, htab⟩ := tokenize_sound s.data ts htok
      have hmain := parseGroups_sound (splitPhrases ts) 1 ps
        (fun g b hg e he => htab e (mem_splitPhrases ts g b hg _ he)) h
      rw [hmain, renderGroups_splitPhrases, hrender]

/-- Concrete round-trip input (the spec's own scenario string). -/
def kanaRoundTripInput : String :=
  "カ" ++ accentStr ++ "ラ/ト" ++ accentStr ++ "マト？"

/-- Decoded form of the concrete round-trip input. -/
def kanaRoundTripPhrases : List AccentPhrase :=
  [⟨[⟨"カ", some "k", some 0, "a", 0, 0⟩,
     ⟨"ラ", some "r", some 0, "a", 0, 0⟩], 1, none, false⟩,
   ⟨[⟨"ト", some "t", some 0, "o", 0, 0⟩,
     ⟨"マ", some "m", some 0, "a", 0, 0⟩,
     ⟨"ト", some "t", some 0, "o", 0, 0⟩], 1, none, true⟩]

/-- Witness for C1: the round-trip theorem applied to the concrete scenario
input. -/
theorem parse_kana_roundtrip_witness :
    parse_kana kanaRoundTripInput = .ok kanaRoundTripPhrases ∧
    create_kana kanaRoundTripPhrases = kanaRoundTripInput :=
  ⟨by rfl, parse_kana_roundtrip _ _ (by rfl)⟩

/-- Well-formed mora token runs: sequences of kana tokens and devoice marks
each immediately followed by a devoiceable kana token. -/
def moraTokensOnly : List KanaToken → Bool
  | [] => true
  | .kana _ :: r => moraTokensOnly r
  | .devoice :: .kana e :: r =>
      decide (e.vowel ∈ devoiceableVowels) && moraTokensOnly r
  | _ => false

/-- Number of moras contributed by a token run. -/
def moraCount : List KanaToken → ℕ
  | [] => 0
  | .kana _ :: r => 1 + moraCount r
  | .devoice :: .kana _ :: r => 1 + moraCount r
  | _ :: r => moraCount r

/-- Moras contributed by a token run. -/
def morasOf : List KanaToken → List Mora
  | [] => []
  | .kana e :: r => moraOfEntry e :: morasOf r
  | .devoice :: .kana e :: r => unvoicedMoraOfEntry e :: morasOf r
  | _ :: r => morasOf r

/-- Walking a well-formed mora run followed by anything consumes the run,
appending its moras and advancing the mora counter. -/
theorem goPhrase_append_moraOnly (pt : String) (isLast : Bool) :
    ∀ (g : List KanaToken), moraTokensOnly g = true →
      ∀ (rest : List KanaToken) (k : ℕ) (hasAcc : Bool),
      goPhrase pt isLast (g ++ rest) k hasAcc
        = (goPhrase pt isLast rest (k + moraCount g) hasAcc).map
            (fun r => (morasOf g ++ r.1, r.2.1, r.2.2)) := by
  intro g
  induction g using moraTokensOnly.induct with
  | case1 =>
      intro _ rest k hasAcc
      simp only [List.nil_append, moraCount, morasOf, Nat.add_zero]
      cases goPhrase pt isLast rest k hasAcc <;> simp [Except.map]
  | case2 e r ih =>
      intro hm rest k hasAcc
      have hm' : moraTokensOnly r = true := by
        simpa [moraTokensOnly] using hm
      show (goPhrase pt isLast (r ++ rest) (k + 1) hasAcc).map _ = _
      rw [ih hm' rest (k + 1) hasAcc,
        show k + 1 + moraCount r = k + moraCount (.kana e :: r) by
          simp [moraCount]; omega]
      cases goPhrase pt isLast rest (k + moraCount (.kana e :: r)) hasAcc <;>
        simp [Except.map, morasOf]
  | case3 e r ih =>
      intro hm rest k hasAcc
      have hm2 : e.vowel ∈ devoiceableVowels ∧ moraTokensOnly r = true := by
        simpa [moraTokensOnly, Bool.and_eq_true, decide_eq_true_eq] using hm
      rw [show goPhrase pt isLast
            (.devoice :: .kana e :: r ++ rest) k hasAcc
          = (goPhrase pt isLast (r ++ rest) (k + 1) hasAcc).map
              (fun x => (unvoicedMoraOfEntry e :: x.1, x.2.1, x.2.2)) from by
        simp [goPhrase, hm2.1]]
      rw [ih hm2.2 rest (k + 1) hasAcc,
        show k + 1 + moraCount r
            = k + moraCount (.devoice :: .kana e :: r) by
          simp [moraCount]; omega]
      cases goPhrase pt isLast rest
          (k + moraCount (.devoice :: .kana e :: r)) hasAcc <;>
        simp [Except.map, morasOf]
  | case4 g h1 h2 h3 =>
      intro hm
      rw [show moraTokensOnly g = false from by
        cases g with
        | nil => exact absurd rfl h1
        | cons t r =>
            cases t with
            | kana e => exact absurd rfl (h2 e r)
            | devoice =>
                cases r with
                | nil => rfl
                | cons t' r' =>
                    cases t' with
                    | kana e' => exact absurd rfl (h3 e' r')
                    | devoice => rfl
                    | accentMark => rfl
                    | interrogative => rfl
                    | phraseSep => rfl
                    | pausedPhraseSep => rfl
            | accentMark => rfl
            | interrogative => rfl
            | phraseSep => rfl
            | pausedPhraseSep => rfl] at hm
      cases hm

/-- A well-formed mora run alone walks to its moras with no accent recorded
and no interrogative flag. -/
theorem goPhrase_moraOnly (pt : String) (isLast : Bool) (g : List KanaToken)
    (hm : moraTokensOnly g = true) (k : ℕ) (hasAcc : Bool) :
    goPhrase pt isLast g k hasAcc = .ok (morasOf g, none, false) := by
  have h := goPhrase_append_moraOnly pt isLast g hm [] k hasAcc
  rw [List.append_nil] at h
  rw [h]
  simp [goPhrase, Except.map]

/-- A non-empty well-formed mora run contributes at least one mora. -/
theorem moraCount_pos :
    ∀ (g : List KanaToken), moraTokensOnly g = true → g ≠ [] →
      1 ≤ moraCount g := by
  intro g
  induction g using moraTokensOnly.induct with
  | case1 => intro _ hne; exact absurd rfl hne
  | case2 e r ih => intro _ _; simp [moraCount]
  | case3 e r ih => intro _ _; simp [moraCount]
  | case4 g h1 h2 h3 =>
      intro hm hne
      rw [show moraTokensOnly g = false from by
        cases g with
        | nil => exact absurd rfl h1
        | cons t r =>
            cases t with
            | kana e => exact absurd rfl (h2 e r)
            | devoice =>
                cases r with
                | nil => rfl
                | cons t' r' =>
                    cases t' with
                    | kana e' => exact absurd rfl (h3 e' r')
                    | devoice => rfl
                    | accentMark => rfl
                    | interrogative => rfl
                    | phraseSep => rfl
                    | pausedPhraseSep => rfl
            | accentMark => rfl
            | interrogative => rfl
            | phraseSep => rfl
            | pausedPhraseSep => rfl] at hm
      cases hm

/-- An accent mark after at least one mora records the current mora count
and continues with the accent flag set. -/
theorem goPhrase_accent_step (pt : String) (isLast : Bool)
    (rest : List KanaToken) (k : ℕ) (hk : ¬ k = 0) :
    goPhrase pt isLast (.accentMark :: rest) k false
      = (goPhrase pt isLast rest k true).map
          (fun r => (r.1, some k, r.2.2)) := by
  simp [goPhrase, hk]

/-- A second accent mark after at least one mora is the duplicate-accent
error. -/
theorem goPhrase_accent_dup (pt : String) (isLast : Bool)
    (rest : List KanaToken) (k : ℕ) (hk : ¬ k = 0) :
    goPhrase pt isLast (.accentMark :: rest) k true
      = .error (.duplicateAccent pt) := by
  simp [goPhrase, hk]

/-- C8 (amended): within phrase parsing, an otherwise well-formed phrase
group (a run of kana and properly placed devoice tokens) with zero accent
marks fails with the missing-accent error carrying the phrase's full text;
and a group whose first accent mark is preceded by a non-empty well-formed
mora run and whose second accent mark follows a further well-formed run
fails with the duplicate-accent error carrying the phrase's full text.  (As
originally stated the claim is false: an earlier grammar violation, e.g. an
accent mark before the first mora, preempts both errors — see the
counterexample.) -/
theorem parsePhrase_accent_bounds (pos : ℕ) (isLast paused : Bool) :
    (∀ g, moraTokensOnly g = true → g ≠ [] →
      parsePhrase g pos isLast paused
        = .error (.missingAccent (renderTokens g))) ∧
    (∀ g₁ g₂ grest, moraTokensOnly g₁ = true → g₁ ≠ [] →
      moraTokensOnly g₂ = true →
      parsePhrase (g₁ ++ .accentMark :: (g₂ ++ .accentMark :: grest))
          pos isLast paused
        = .error (.duplicateAccent
            (renderTokens
              (g₁ ++ .accentMark :: (g₂ ++ .accentMark :: grest))))) := by
  constructor
  · intro g hm hne
    unfold parsePhrase
    rw [if_neg (by simpa [List.isEmpty_iff] using hne),
      goPhrase_moraOnly _ _ g hm 0 false]
  · intro g₁ g₂ grest hm1 hne1 hm2
    have hc1 := moraCount_pos g₁ hm1 hne1
    unfold parsePhrase
    rw [if_neg (by simp [List.isEmpty_iff]),
      goPhrase_append_moraOnly _ _ g₁ hm1 _ 0 false,
      goPhrase_accent_step _ _ _ _ (by omega),
      goPhrase_append_moraOnly _ _ g₂ hm2 _ _ true,
      goPhrase_accent_dup _ _ _ _ (by omega)]
    simp [Except.map]

/-- Witness for C8: the amended theorem applied to the concrete groups `ア`
(no accent mark) and `ア''` (two accent marks after one mora). -/
theorem parsePhrase_accent_bounds_witness :
    parsePhrase [KanaToken.kana ⟨"ア", none, "a"⟩] 1 true false
      = .error (.missingAccent
          (renderTokens [KanaToken.kana ⟨"ア", none, "a"⟩])) ∧
    parsePhrase ([KanaToken.kana ⟨"ア", none, "a"⟩]
        ++ .accentMark :: ([] ++ .accentMark :: [])) 1 true false
      = .error (.duplicateAccent
          (renderTokens ([KanaToken.kana ⟨"ア", none, "a"⟩]
            ++ .accentMark :: ([] ++ .accentMark :: [])))) :=
  ⟨(parsePhrase_accent_bounds 1 true false).1 _ rfl (by simp),
   (parsePhrase_accent_bounds 1 true false).2 _ _ _ rfl (by simp) rfl⟩

/-- C8 counterexample: the input of two bare accent marks reaches a phrase
group containing two accent marks, yet decode fails with the
accent-before-phrase-start error, not the duplicate-accent error — the
claim as universally stated is false. -/
theorem duplicate_accent_not_always_reported :
    parse_kana (String.mk [accentSymbol, accentSymbol])
      = .error (.accentBeforePhraseStart
          (String.mk [accentSymbol, accentSymbol])) ∧
    tokenize [accentSymbol, accentSymbol]
      = .ok [.accentMark, .accentMark] :=
  ⟨by rfl, by rfl⟩
